import Mathlib

/-!
Verification of the artifact-cache and scheduler specification of this
repository.  The sampled sources contain the regression tests and test
utilities of the cache subsystem; the cache manager, scheduler and remote
protocol themselves are described by the specification, so those parts are
modelled here from the specification's own words, while the test utility
`ArtifactShare.has_artifact` is embedded directly from its source.
-/

set_option linter.unusedVariables false

namespace Bst

/-- Modelled from the spec: an artifact (section 3, Glossary) as the cache
manager sees it, identified by its composed name and occupying a byte size.
The cache-manager implementation is not part of the sampled sources (only its
regression tests in tests/frontend/push.py are). -/
structure Artifact where
  name : String
  size : Nat
deriving DecidableEq, Repr

/-- Modelled from the spec: an Artifact Record entry as used for eviction
ordering (section 3): the artifact, a last-access timestamp, and an insertion
sequence number used as the deterministic tie-break (section 4.3). -/
structure CacheRec where
  art : Artifact
  lastAccess : Nat
  seq : Nat
deriving DecidableEq, Repr

/-- Modelled from the spec: the state of one cache instance (local or remote,
section 4.3): the indexed records and the usable byte budget
(total quota minus headroom, already resolved). -/
structure RemoteCache where
  records : List CacheRec
  quota : Nat
deriving DecidableEq, Repr

/-- Total size occupied by a list of records. -/
def usage (recs : List CacheRec) : Nat :=
  (recs.map (fun r => r.art.size)).sum

/-- Record a is evicted before record b: strictly older last access, or equal
last access and earlier insertion (spec section 4.3 tie-break). -/
def older (a b : CacheRec) : Prop :=
  a.lastAccess < b.lastAccess ∨ (a.lastAccess = b.lastAccess ∧ a.seq < b.seq)

instance (a b : CacheRec) : Decidable (older a b) := by
  unfold older
  exact inferInstance

/-- Modelled from the spec: pick the least-recently-used record (ascending
last-access order, section 4.3 step 3). -/
def lruMin : List CacheRec → Option CacheRec
  | [] => none
  | r :: rest =>
    match lruMin rest with
    | none => some r
    | some m => if older m r then some m else some r

/-- Modelled from the spec: evict one whole record, the least recently used
(section 4.3 step 3). -/
def evictStep (recs : List CacheRec) : List CacheRec :=
  match lruMin recs with
  | none => []
  | some m => recs.erase m

/-- Modelled from the spec: evict records one at a time, recomputing usage
after each, until usage is within budget or no records remain
(section 4.3 step 3).  The fuel argument bounds the iteration count; one unit
per stored record suffices since each step removes a record. -/
def evictLoop : Nat → Nat → List CacheRec → List CacheRec
  | 0, _, recs => recs
  | fuel + 1, quota, recs =>
    if usage recs ≤ quota then recs
    else evictLoop fuel quota (evictStep recs)

inductive CacheErr where
  | tooLarge
deriving DecidableEq, Repr

/-- Modelled from the spec: committing an artifact into a cache instance
(sections 4.2 and 4.3): an artifact whose size alone exceeds the quota is
refused up front rather than admitted (section 4.3 step 4); otherwise the
record is inserted and the eviction pass runs. -/
def commit (c : RemoteCache) (a : Artifact) (now seq : Nat) :
    Except CacheErr RemoteCache :=
  if c.quota < a.size then .error .tooLarge
  else
    let recs := c.records ++ [⟨a, now, seq⟩]
    .ok ⟨evictLoop recs.length c.quota recs, c.quota⟩

/-- Modelled from the spec: what the pushing client observes of the share
after a push attempt: the new state on success, the unchanged state when the
commit was refused (section 4.3: refusal does not alter stored records). -/
def afterPush (c : RemoteCache) (a : Artifact) (now seq : Nat) : RemoteCache :=
  match commit c a now seq with
  | .ok c2 => c2
  | .error _ => c

/-- Modelled from the spec: reading (pulling) an artifact from the remote
share.  Per the regression test note and the design note of section 9, the
current remote cache orders eviction by least-recently-pushed only: a read
does not refresh any record's recency, so the pull is a pure lookup. -/
def pullRead (c : RemoteCache) (n : String) : Option Artifact :=
  match c.records.find? (fun r => r.art.name = n) with
  | some r => some r.art
  | none => none

theorem evictLoop_succ (fuel quota : Nat) (recs : List CacheRec) :
    evictLoop (fuel + 1) quota recs =
      if usage recs ≤ quota then recs
      else evictLoop fuel quota (evictStep recs) := rfl

/-- C1: LRU eviction correctness.  With artifacts A (oldest access), B, C
(newest access) and a quota that fits B and C together but not all three,
the commit of C forces one eviction, which removes exactly the record of A;
the records of B and C remain stored. -/
theorem C1_lru_eviction (q : Nat) (A B C : Artifact) (tA tB tC sqA sqB sqC : Nat)
    (hAB : tA < tB) (hBC : tB < tC)
    (hfit : B.size + C.size ≤ q)
    (hforce : q < A.size + B.size + C.size)
    (hAneB : A ≠ B) (hAneC : A ≠ C) :
    commit ⟨[⟨A, tA, sqA⟩, ⟨B, tB, sqB⟩], q⟩ C tC sqC =
      .ok ⟨[⟨B, tB, sqB⟩, ⟨C, tC, sqC⟩], q⟩ ∧
    ∀ r ∈ [(⟨B, tB, sqB⟩ : CacheRec), ⟨C, tC, sqC⟩], r.art ≠ A := by
  have hno1 : ¬ older ⟨C, tC, sqC⟩ ⟨B, tB, sqB⟩ := by
    simp [older]
    omega
  have hno2 : ¬ older ⟨B, tB, sqB⟩ ⟨A, tA, sqA⟩ := by
    simp [older]
    omega
  have hmin : lruMin [⟨A, tA, sqA⟩, ⟨B, tB, sqB⟩, ⟨C, tC, sqC⟩] =
      some ⟨A, tA, sqA⟩ := by
    simp [lruMin, hno1, hno2]
  have hstep : evictStep [⟨A, tA, sqA⟩, ⟨B, tB, sqB⟩, ⟨C, tC, sqC⟩] =
      [⟨B, tB, sqB⟩, ⟨C, tC, sqC⟩] := by
    simp [evictStep, hmin]
  have hev : evictLoop (2 + 1) q [⟨A, tA, sqA⟩, ⟨B, tB, sqB⟩, ⟨C, tC, sqC⟩] =
      [⟨B, tB, sqB⟩, ⟨C, tC, sqC⟩] := by
    rw [evictLoop_succ,
      if_neg (by simp [usage]; omega :
        ¬ usage [⟨A, tA, sqA⟩, ⟨B, tB, sqB⟩, ⟨C, tC, sqC⟩] ≤ q),
      hstep, evictLoop_succ,
      if_pos (by simp [usage]; omega :
        usage [⟨B, tB, sqB⟩, ⟨C, tC, sqC⟩] ≤ q)]
  constructor
  · unfold commit
    rw [if_neg (by omega : ¬ q < C.size)]
    show Except.ok
      (⟨evictLoop (2 + 1) q [⟨A, tA, sqA⟩, ⟨B, tB, sqB⟩, ⟨C, tC, sqC⟩], q⟩ :
        RemoteCache) = _
    rw [hev]
  · intro r hr
    simp only [List.mem_cons, List.not_mem_nil, or_false] at hr
    rcases hr with h | h
    · subst h
      exact fun hc => hAneB hc.symm
    · subst h
      exact fun hc => hAneC hc.symm

/-- C1 witness: the concrete scenario of the regression test, three 5 MB
artifacts and a budget of 12 MB. -/
theorem C1_lru_eviction_witness :
    commit ⟨[⟨⟨"element1", 5⟩, 1, 0⟩, ⟨⟨"element2", 5⟩, 2, 1⟩], 12⟩
        ⟨"element3", 5⟩ 3 2 =
      .ok ⟨[⟨⟨"element2", 5⟩, 2, 1⟩, ⟨⟨"element3", 5⟩, 3, 2⟩], 12⟩ ∧
    ∀ r ∈ [(⟨⟨"element2", 5⟩, 2, 1⟩ : CacheRec), ⟨⟨"element3", 5⟩, 3, 2⟩],
      r.art ≠ ⟨"element1", 5⟩ :=
  C1_lru_eviction 12 ⟨"element1", 5⟩ ⟨"element2", 5⟩ ⟨"element3", 5⟩
    1 2 3 0 1 2 (by decide) (by decide) (by decide) (by decide)
    (by decide) (by decide)

/-- The remote-cache scenario of the recently-pulled regression test:
element1 pushed at time 1, element2 pushed at time 2 (both 5 MB, budget
12 MB), element1 pulled at time 3 (a pure read on the remote), then element3
(5 MB) pushed at time 4, forcing an eviction. -/
def pulledScenario : Except CacheErr RemoteCache :=
  match commit ⟨[], 12⟩ ⟨"element1", 5⟩ 1 0 with
  | .error e => .error e
  | .ok c1 =>
    match commit c1 ⟨"element2", 5⟩ 2 1 with
    | .error e => .error e
    | .ok c2 =>
      match pullRead c2 "element1" with
      | none => .ok c2
      | some _ => commit c2 ⟨"element3", 5⟩ 4 2

/-- C2: the code evicts by least-recently-pushed, not least-recently-used.
In the scenario of the regression test (which that test marks as expected to
fail), the pull of element1 does not refresh its recency on the remote, so
the commit of element3 evicts element1 — the least recently pushed — while
the claim expects element2 to be evicted and element1 to remain. -/
theorem C2_least_recently_pushed_eviction :
    pullRead ⟨[⟨⟨"element1", 5⟩, 1, 0⟩, ⟨⟨"element2", 5⟩, 2, 1⟩], 12⟩
        "element1" = some ⟨"element1", 5⟩ ∧
    pulledScenario =
      .ok ⟨[⟨⟨"element2", 5⟩, 2, 1⟩, ⟨⟨"element3", 5⟩, 4, 2⟩], 12⟩ ∧
    (∀ r ∈ [(⟨⟨"element2", 5⟩, 2, 1⟩ : CacheRec), ⟨⟨"element3", 5⟩, 4, 2⟩],
      r.art.name ≠ "element1") := by
  refine ⟨rfl, rfl, by decide⟩

/-- C4: oversized artifact refusal.  An artifact whose size alone exceeds the
quota is refused: the commit reports an error, the share state the pusher
observes is unchanged, every record already present remains stored, and the
oversized artifact is not stored. -/
theorem C4_artifact_too_large (c : RemoteCache) (a : Artifact) (now seq : Nat)
    (h : c.quota < a.size) :
    commit c a now seq = .error .tooLarge ∧
    afterPush c a now seq = c ∧
    (∀ r ∈ c.records, r ∈ (afterPush c a now seq).records) ∧
    ((∀ r ∈ c.records, r.art ≠ a) →
      ∀ r ∈ (afterPush c a now seq).records, r.art ≠ a) := by
  have hc : commit c a now seq = .error .tooLarge := by
    unfold commit
    rw [if_pos h]
  have hp : afterPush c a now seq = c := by
    unfold afterPush
    rw [hc]
  refine ⟨hc, hp, ?_, ?_⟩
  · intro r hr
    rw [hp]
    exact hr
  · intro hnone r hr
    rw [hp] at hr
    exact hnone r hr

/-- C4 witness: the regression-test scenario, a 3 MB artifact stored under a
5 MB quota and a 6 MB artifact refused. -/
theorem C4_artifact_too_large_witness :
    commit ⟨[⟨⟨"small_element", 3⟩, 1, 0⟩], 5⟩ ⟨"large_element", 6⟩ 2 1 =
      .error .tooLarge ∧
    afterPush ⟨[⟨⟨"small_element", 3⟩, 1, 0⟩], 5⟩ ⟨"large_element", 6⟩ 2 1 =
      ⟨[⟨⟨"small_element", 3⟩, 1, 0⟩], 5⟩ ∧
    (∀ r ∈ [(⟨⟨"small_element", 3⟩, 1, 0⟩ : CacheRec)],
      r ∈ (afterPush ⟨[⟨⟨"small_element", 3⟩, 1, 0⟩], 5⟩
        ⟨"large_element", 6⟩ 2 1).records) ∧
    ((∀ r ∈ [(⟨⟨"small_element", 3⟩, 1, 0⟩ : CacheRec)],
        r.art ≠ ⟨"large_element", 6⟩) →
      ∀ r ∈ (afterPush ⟨[⟨⟨"small_element", 3⟩, 1, 0⟩], 5⟩
        ⟨"large_element", 6⟩ 2 1).records, r.art ≠ ⟨"large_element", 6⟩) :=
  C4_artifact_too_large ⟨[⟨⟨"small_element", 3⟩, 1, 0⟩], 5⟩
    ⟨"large_element", 6⟩ 2 1 (by decide)

/-- Modelled from the spec: a Digest (section 3): a hash and a byte size
identifying immutable content. -/
structure Digest where
  hash : String
  sizeBytes : Nat
deriving DecidableEq, Repr

/-- Modelled from the spec: a logical directory tree of named entries
(section 3): files with content, symlinks with a target, and directories,
which are encoded here as cons-lists of named children (dirNil is the empty
directory, dirCons prepends the entry (name, child) to the directory rest).
The tree serialization code is not part of the sampled sources (only
tests/frontend/buildcheckout.py is). -/
inductive FsEntry where
  | file (content : String)
  | symlink (target : String)
  | dirNil
  | dirCons (name : String) (child : FsEntry) (rest : FsEntry)
deriving DecidableEq, Repr

/-- The names of the top-level entries of a directory, in listed order. -/
def entryNames : FsEntry → List String
  | .dirCons n _ r => n :: entryNames r
  | _ => []

/-- A well-formed tree: within each directory the entry names are distinct
(a directory maps each name to at most one child). -/
def wfTree : FsEntry → Bool
  | .dirCons n c r =>
    if n ∈ entryNames r then false else wfTree c && wfTree r
  | _ => true

/-- Equality of logical trees up to entry insertion order: the same named
entries with the same attributes at every level, with directory order
permuted arbitrarily.  The constructors mirror list permutations inside
every directory. -/
inductive SameTree : FsEntry → FsEntry → Prop where
  | file (c : String) : SameTree (.file c) (.file c)
  | symlink (t : String) : SameTree (.symlink t) (.symlink t)
  | dirNil : SameTree .dirNil .dirNil
  | cons (n : String) (c₁ c₂ r₁ r₂ : FsEntry) :
      SameTree c₁ c₂ → SameTree r₁ r₂ →
      SameTree (.dirCons n c₁ r₁) (.dirCons n c₂ r₂)
  | swap (n₁ n₂ : String) (c₁ c₂ r : FsEntry) :
      SameTree (.dirCons n₁ c₁ (.dirCons n₂ c₂ r))
               (.dirCons n₂ c₂ (.dirCons n₁ c₁ r))
  | trans (t₁ t₂ t₃ : FsEntry) :
      SameTree t₁ t₂ → SameTree t₂ t₃ → SameTree t₁ t₃

/-- The name order used for the stable serialization of directory entries. -/
def entryLe (a b : String × FsEntry) : Prop := a.1 ≤ b.1

instance : DecidableRel entryLe := fun a b =>
  inferInstanceAs (Decidable (a.1 ≤ b.1))

instance : IsTotal (String × FsEntry) entryLe :=
  ⟨fun a b => le_total a.1 b.1⟩

instance : IsTrans (String × FsEntry) entryLe :=
  ⟨fun a b c h₁ h₂ => le_trans h₁ h₂⟩

/-- The strict name order, used to show the stable ordering is unique when
names are distinct. -/
def entryLt (a b : String × FsEntry) : Prop := a.1 < b.1

instance : IsAntisymm (String × FsEntry) entryLt :=
  ⟨fun a b h₁ h₂ => absurd (lt_trans h₁ h₂) (lt_irrefl a.1)⟩

/-- Modelled from the spec: the stable ordering of directory entries used by
the deterministic serialization (section 3): sort by entry name. -/
def sortEntries (l : List (String × FsEntry)) : List (String × FsEntry) :=
  List.insertionSort entryLe l

/-- Rebuild a directory from a list of named children. -/
def dirOfList : List (String × FsEntry) → FsEntry
  | [] => .dirNil
  | (n, c) :: r => .dirCons n c (dirOfList r)

mutual

/-- Modelled from the spec: metadata/order normalization before
serialization (section 3): every directory's entries are recursively
normalized and put into the stable name order. -/
def normalize : FsEntry → FsEntry
  | .file c => .file c
  | .symlink t => .symlink t
  | .dirNil => .dirNil
  | .dirCons n c r => dirOfList (sortEntries ((n, normalize c) :: normEntries r))

/-- The normalized top-level entry list of a directory. -/
def normEntries : FsEntry → List (String × FsEntry)
  | .dirCons n c r => (n, normalize c) :: normEntries r
  | _ => []

end

/-- Modelled from the spec: the canonical serialization of a (normalized)
tree as a byte string (section 3, Merkle serialization collapsed to the
full canonical encoding). -/
def encode : FsEntry → String
  | .file c => "file(" ++ c ++ ")"
  | .symlink t => "link(" ++ t ++ ")"
  | .dirNil => "dir()"
  | .dirCons n c r => "ent(" ++ n ++ "," ++ encode c ++ ");" ++ encode r

/-- Modelled from the spec: the Digest of a serialized tree (section 3): the
serialization is deterministic, so the digest is a function of the
normalized tree; content addressing is modelled by using the canonical
encoding itself as the hash, with its length as the size. -/
def digestOf (t : FsEntry) : Digest :=
  ⟨encode (normalize t), (encode (normalize t)).length⟩

/-- Modelled from the spec: the contents of a tar archive produced by
checking out an artifact (the checkout job of section 4.5): a deterministic
function of the artifact's stored normalized tree. -/
def checkoutTar (t : FsEntry) : String :=
  "tar(" ++ encode (normalize t) ++ ")"

theorem entryNames_sameTree {t₁ t₂ : FsEntry} (h : SameTree t₁ t₂) :
    List.Perm (entryNames t₁) (entryNames t₂) := by
  induction h with
  | file c => exact List.Perm.refl _
  | symlink t => exact List.Perm.refl _
  | dirNil => exact List.Perm.refl _
  | cons n c₁ c₂ r₁ r₂ hc hr ihc ihr => exact List.Perm.cons n ihr
  | swap n₁ n₂ c₁ c₂ r => exact List.Perm.swap n₂ n₁ _
  | trans t₁ t₂ t₃ h₁ h₂ ih₁ ih₂ => exact ih₁.trans ih₂

theorem entryNames_cons (n : String) (c r : FsEntry) :
    entryNames (.dirCons n c r) = n :: entryNames r := rfl

theorem wf_cons_iff (n : String) (c r : FsEntry) :
    wfTree (.dirCons n c r) = true ↔
      (n ∉ entryNames r ∧ wfTree c = true ∧ wfTree r = true) := by
  have heq : wfTree (.dirCons n c r) =
      if n ∈ entryNames r then false else wfTree c && wfTree r := rfl
  rw [heq]
  by_cases h : n ∈ entryNames r
  · simp [h]
  · simp [h, Bool.and_eq_true]

theorem wfTree_sameTree {t₁ t₂ : FsEntry} (h : SameTree t₁ t₂) :
    wfTree t₁ = true → wfTree t₂ = true := by
  induction h with
  | file c => exact fun h => h
  | symlink t => exact fun h => h
  | dirNil => exact fun h => h
  | cons n c₁ c₂ r₁ r₂ hc hr ihc ihr =>
    intro hwf
    rw [wf_cons_iff] at hwf
    rw [wf_cons_iff]
    exact ⟨fun h2 => hwf.1 ((entryNames_sameTree hr).mem_iff.mpr h2),
      ihc hwf.2.1, ihr hwf.2.2⟩
  | swap n₁ n₂ c₁ c₂ r =>
    intro hwf
    rw [wf_cons_iff, entryNames_cons, List.mem_cons, not_or] at hwf
    obtain ⟨⟨hne, hn1⟩, hc1, hrest⟩ := hwf
    rw [wf_cons_iff] at hrest
    obtain ⟨hn2, hc2, hr⟩ := hrest
    rw [wf_cons_iff, entryNames_cons, List.mem_cons, not_or]
    refine ⟨⟨fun h2 => hne h2.symm, hn2⟩, hc2, ?_⟩
    rw [wf_cons_iff]
    exact ⟨hn1, hc1, hr⟩
  | trans t₁ t₂ t₃ hs₁ hs₂ ih₁ ih₂ => exact fun h => ih₂ (ih₁ h)

theorem normEntries_names (t : FsEntry) :
    (normEntries t).map Prod.fst = entryNames t := by
  induction t with
  | file c => rfl
  | symlink s => rfl
  | dirNil => rfl
  | dirCons n c r ihc ihr =>
    unfold normEntries entryNames
    rw [List.map_cons, ihr]

theorem wfTree_names_pairwise (t : FsEntry) (h : wfTree t = true) :
    (entryNames t).Pairwise (fun a b => a ≠ b) := by
  induction t with
  | file c => exact List.Pairwise.nil
  | symlink s => exact List.Pairwise.nil
  | dirNil => exact List.Pairwise.nil
  | dirCons n c r ihc ihr =>
    rw [wf_cons_iff] at h
    rw [entryNames_cons]
    exact List.Pairwise.cons
      (fun b hb hedge => h.1 (hedge ▸ hb)) (ihr h.2.2)

theorem sortEntries_perm (l : List (String × FsEntry)) :
    List.Perm (sortEntries l) l :=
  List.perm_insertionSort entryLe l

theorem sortEntries_sorted (l : List (String × FsEntry)) :
    List.Sorted entryLe (sortEntries l) :=
  List.sorted_insertionSort entryLe l

theorem sortEntries_eq_of_perm {l₁ l₂ : List (String × FsEntry)}
    (hp : List.Perm l₁ l₂)
    (hnd : l₁.Pairwise (fun a b => a.1 ≠ b.1)) :
    sortEntries l₁ = sortEntries l₂ := by
  have hperm : List.Perm (sortEntries l₁) (sortEntries l₂) :=
    ((sortEntries_perm l₁).trans hp).trans (sortEntries_perm l₂).symm
  have hsym : ∀ {x y : String × FsEntry}, x.1 ≠ y.1 → y.1 ≠ x.1 :=
    fun h hc => h hc.symm
  have hnd₁ : (sortEntries l₁).Pairwise (fun a b => a.1 ≠ b.1) :=
    (List.Perm.pairwise_iff hsym (sortEntries_perm l₁)).mpr hnd
  have hnd₂ : (sortEntries l₂).Pairwise (fun a b => a.1 ≠ b.1) :=
    (List.Perm.pairwise_iff hsym hperm).mp hnd₁
  have hlt₁ : (sortEntries l₁).Pairwise entryLt := by
    have := (sortEntries_sorted l₁).and hnd₁
    exact this.imp (fun h => lt_of_le_of_ne h.1 h.2)
  have hlt₂ : (sortEntries l₂).Pairwise entryLt := by
    have := (sortEntries_sorted l₂).and hnd₂
    exact this.imp (fun h => lt_of_le_of_ne h.1 h.2)
  exact List.eq_of_perm_of_sorted hperm hlt₁ hlt₂

theorem normEntries_pairwise {t : FsEntry} (h : wfTree t = true) :
    (normEntries t).Pairwise (fun a b => a.1 ≠ b.1) := by
  have hnames := wfTree_names_pairwise t h
  rw [← normEntries_names] at hnames
  exact (List.pairwise_map).mp hnames

theorem sameTree_normalize {t₁ t₂ : FsEntry} (hs : SameTree t₁ t₂) :
    wfTree t₁ = true →
      normalize t₁ = normalize t₂ ∧
      List.Perm (normEntries t₁) (normEntries t₂) := by
  induction hs with
  | file c => exact fun _ => ⟨rfl, List.Perm.refl _⟩
  | symlink t => exact fun _ => ⟨rfl, List.Perm.refl _⟩
  | dirNil => exact fun _ => ⟨rfl, List.Perm.refl _⟩
  | cons n c₁ c₂ r₁ r₂ hc hr ihc ihr =>
    intro hwf
    unfold wfTree at hwf
    by_cases hmem : n ∈ entryNames r₁
    · rw [if_pos hmem] at hwf
      cases hwf
    · rw [if_neg hmem] at hwf
      have h1 := (Bool.and_eq_true _ _).mp hwf
      have ihc2 := ihc h1.1
      have ihr2 := ihr h1.2
      have hpermlist :
          List.Perm ((n, normalize c₁) :: normEntries r₁)
            ((n, normalize c₂) :: normEntries r₂) := by
        rw [ihc2.1]
        exact List.Perm.cons _ ihr2.2
      have hpw : ((n, normalize c₁) :: normEntries r₁).Pairwise
          (fun a b => a.1 ≠ b.1) := by
        refine List.Pairwise.cons ?_ (normEntries_pairwise h1.2)
        intro b hb
        have : b.1 ∈ entryNames r₁ := by
          rw [← normEntries_names]
          exact List.mem_map_of_mem Prod.fst hb
        intro hc2
        apply hmem
        rw [show n = b.1 from hc2]
        exact this
      constructor
      · show dirOfList (sortEntries ((n, normalize c₁) :: normEntries r₁)) =
          dirOfList (sortEntries ((n, normalize c₂) :: normEntries r₂))
        rw [sortEntries_eq_of_perm hpermlist hpw]
      · exact hpermlist
  | swap n₁ n₂ c₁ c₂ r =>
    intro hwf
    have hpermlist :
        List.Perm ((n₁, normalize c₁) :: (n₂, normalize c₂) :: normEntries r)
          ((n₂, normalize c₂) :: (n₁, normalize c₁) :: normEntries r) :=
      List.Perm.swap _ _ _
    have hpw : ((n₁, normalize c₁) :: (n₂, normalize c₂) :: normEntries r).Pairwise
        (fun a b => a.1 ≠ b.1) := by
      have hnames := wfTree_names_pairwise _ hwf
      unfold entryNames at hnames
      unfold entryNames at hnames
      have : ((n₁, normalize c₁) :: (n₂, normalize c₂) :: normEntries r).map
          Prod.fst = n₁ :: n₂ :: entryNames r := by
        simp [normEntries_names]
      rw [← List.pairwise_map (f := Prod.fst), this]
      exact hnames
    constructor
    · show dirOfList (sortEntries
          ((n₁, normalize c₁) :: normEntries (FsEntry.dirCons n₂ c₂ r))) =
        dirOfList (sortEntries
          ((n₂, normalize c₂) :: normEntries (FsEntry.dirCons n₁ c₁ r)))
      show dirOfList (sortEntries
          ((n₁, normalize c₁) :: (n₂, normalize c₂) :: normEntries r)) =
        dirOfList (sortEntries
          ((n₂, normalize c₂) :: (n₁, normalize c₁) :: normEntries r))
      rw [sortEntries_eq_of_perm hpermlist hpw]
    · exact hpermlist
  | trans t₁ t₂ t₃ hs₁ hs₂ ih₁ ih₂ =>
    intro hwf
    have r₁ := ih₁ hwf
    have r₂ := ih₂ (wfTree_sameTree hs₁ hwf)
    exact ⟨r₁.1.trans r₂.1, r₁.2.trans r₂.2⟩

/-- C6: tree determinism.  Serializing the same logical directory tree (same
entries at every level, in any insertion order) yields the same digest, and
checking the same artifact out as a tar archive therefore yields
byte-identical archive contents. -/
theorem C6_tree_determinism (t₁ t₂ : FsEntry) (hwf : wfTree t₁ = true)
    (hs : SameTree t₁ t₂) :
    digestOf t₁ = digestOf t₂ ∧ checkoutTar t₁ = checkoutTar t₂ := by
  have h := (sameTree_normalize hs hwf).1
  unfold digestOf checkoutTar
  rw [h]
  exact ⟨rfl, rfl⟩

/-- C6 witness: a directory with entries inserted in the orders (b, a) and
(a, b): both serialize to the same digest and the same tar contents. -/
theorem C6_tree_determinism_witness :
    wfTree (.dirCons "b" (.file "B") (.dirCons "a" (.file "A") .dirNil)) =
      true ∧
    digestOf (.dirCons "b" (.file "B") (.dirCons "a" (.file "A") .dirNil)) =
      digestOf (.dirCons "a" (.file "A") (.dirCons "b" (.file "B") .dirNil)) ∧
    checkoutTar (.dirCons "b" (.file "B") (.dirCons "a" (.file "A") .dirNil)) =
      checkoutTar (.dirCons "a" (.file "A") (.dirCons "b" (.file "B") .dirNil)) :=
  ⟨by decide,
   (C6_tree_determinism _ _ (by decide)
     (SameTree.swap "b" "a" (.file "B") (.file "A") .dirNil)).1,
   (C6_tree_determinism _ _ (by decide)
     (SameTree.swap "b" "a" (.file "B") (.file "A") .dirNil)).2⟩

/-- Modelled from the spec: a configured remote endpoint (section 6): an
identifier, its push-enabled flag, and whether it already holds the artifact
under consideration.  The remote configuration handling is not part of the
sampled sources (only tests/frontend/push.py is). -/
structure Remote where
  id : Nat
  push : Bool
  has : Bool
deriving DecidableEq, Repr

/-- Modelled from the spec: how an element's build job was satisfied
(section 4.5): built locally, satisfied by a pull from a given remote, or
already cached. -/
inductive BuildOutcome where
  | builtLocally
  | pulledFrom (id : Nat)
  | cachedAlready
deriving DecidableEq, Repr

/-- Modelled from the spec: the push jobs enqueued after a build job
(section 4.5 step 5): nothing for an already-cached skip; after a local
build, one push job per push-enabled remote; after a pull, artifacts are
deliberately not re-pushed to the remote they were pulled from but may be
pushed to a different configured push-enabled remote that does not yet have
them. -/
def pushJobs : BuildOutcome → List Remote → List Remote
  | .cachedAlready, _ => []
  | .builtLocally, remotes => remotes.filter (fun q => q.push)
  | .pulledFrom rid, remotes =>
      remotes.filter (fun q => q.push && q.id != rid && !q.has)

/-- C3: no repush after pull.  When a build is satisfied by pulling from
remote R and every push-enabled remote in the configuration is R itself,
zero push jobs are issued; when a second push-enabled remote R2 that lacks
the artifact is added to the configuration, exactly one push job is issued
and it targets R2. -/
theorem C3_no_repush_after_pull (remotes : List Remote) (R R2 : Remote)
    (honly : ∀ q ∈ remotes, q.push = true → q.id = R.id) :
    pushJobs (.pulledFrom R.id) remotes = [] ∧
    (R2.push = true → R2.has = false → R2.id ≠ R.id →
      pushJobs (.pulledFrom R.id) (remotes ++ [R2]) = [R2]) := by
  have hnil : remotes.filter (fun q => q.push && q.id != R.id && !q.has) = [] := by
    induction remotes with
    | nil => rfl
    | cons q rest ih =>
      have hq : (q.push && q.id != R.id && !q.has) = false := by
        by_cases hp : q.push = true
        · have := honly q (by simp) hp
          simp [this]
        · simp [Bool.eq_false_iff.mpr hp]
      rw [List.filter_cons, hq]
      simp only [Bool.false_eq_true, if_false]
      exact ih (fun q hq2 hp => honly q (List.mem_cons_of_mem _ hq2) hp)
  constructor
  · exact hnil
  · intro hp hh hne
    show (remotes ++ [R2]).filter (fun q => q.push && q.id != R.id && !q.has) = [R2]
    rw [List.filter_append, hnil, List.nil_append]
    simp [List.filter_cons, hp, hh, hne]

/-- C3 witness: the regression-test configuration, share1 the pull source
and only push remote first, then share2 added push-enabled and lacking the
artifact. -/
theorem C3_no_repush_after_pull_witness :
    pushJobs (.pulledFrom 0) [⟨0, true, true⟩] = [] ∧
    ((true : Bool) = true → (false : Bool) = false → (1 : Nat) ≠ 0 →
      pushJobs (.pulledFrom 0) ([⟨0, true, true⟩] ++ [⟨1, true, false⟩]) =
        [⟨1, true, false⟩]) :=
  C3_no_repush_after_pull [⟨0, true, true⟩] ⟨0, true, true⟩ ⟨1, true, false⟩
    (by decide)

inductive PushErr where
  | noPushRemotes
deriving DecidableEq, Repr

/-- Modelled from the spec: a push operation over a remote configuration
(section 6): push is attempted against only push-enabled remotes — all of
them — and fails outright when no configured remote is push-enabled.  The
result lists the remotes that receive the artifact. -/
def pushOp (remotes : List Remote) : Except PushErr (List Remote) :=
  let targets := remotes.filter (fun q => q.push)
  if targets = [] then .error .noPushRemotes else .ok targets

/-- C5: push remote selection.  The push operation fails exactly when no
configured remote is push-enabled (in particular when only pull-only remotes
are configured), and otherwise the artifact goes to every push-enabled
remote and to no pull-only remote. -/
theorem C5_push_remote_selection (remotes : List Remote) :
    (pushOp remotes = .error .noPushRemotes ↔
      ∀ q ∈ remotes, q.push = false) ∧
    (∀ R, R ∈ remotes → R.push = true →
      ∃ ts, pushOp remotes = .ok ts ∧
        ∀ q, (q ∈ ts ↔ (q ∈ remotes ∧ q.push = true))) := by
  have hmem : ∀ q, q ∈ remotes.filter (fun q => q.push) ↔
      (q ∈ remotes ∧ q.push = true) := by
    intro q
    simp [List.mem_filter]
  constructor
  · constructor
    · intro h q hq
      unfold pushOp at h
      by_cases hf : remotes.filter (fun q => q.push) = []
      · by_contra hpush
        have : q ∈ remotes.filter (fun q => q.push) := by
          rw [List.mem_filter]
          exact ⟨hq, by simpa using hpush⟩
        rw [hf] at this
        cases this
      · rw [if_neg hf] at h
        cases h
    · intro h
      unfold pushOp
      have hf : remotes.filter (fun q => q.push) = [] := by
        rw [List.filter_eq_nil_iff]
        intro q hq
        simp [h q hq]
      rw [if_pos hf]
  · intro R hR hRp
    have hf : remotes.filter (fun q => q.push) ≠ [] := by
      intro hc
      have : R ∈ remotes.filter (fun q => q.push) := (hmem R).mpr ⟨hR, hRp⟩
      rw [hc] at this
      cases this
    refine ⟨remotes.filter (fun q => q.push), ?_, hmem⟩
    unfold pushOp
    rw [if_neg hf]

/-- C5 witness: the regression-test configuration with share1 pull-only and
share2 push-enabled: the push goes to share2 and not to share1; and with no
push-enabled remote the operation fails. -/
theorem C5_push_remote_selection_witness :
    (pushOp [⟨0, false, false⟩] = .error .noPushRemotes) ∧
    ∃ ts, pushOp [⟨0, false, false⟩, ⟨1, true, false⟩] = .ok ts ∧
      ∀ q, (q ∈ ts ↔ (q ∈ [(⟨0, false, false⟩ : Remote), ⟨1, true, false⟩] ∧
        q.push = true)) :=
  ⟨(C5_push_remote_selection [⟨0, false, false⟩]).1.mpr (by decide),
   (C5_push_remote_selection [⟨0, false, false⟩, ⟨1, true, false⟩]).2
     ⟨1, true, false⟩ (by simp) (by decide)⟩

/-- Modelled from the spec: a source entry of an element as the fetch queue
sees it (sections 1 and 4.5): whether the source is already cached (already
satisfied, so its work is skipped), and what invoking its fetch capability
would return.  The fetch scheduling code is not part of the sampled sources
(only tests/sources/no_fetch_cached.py is). -/
structure TestSource where
  cached : Bool
  fetchOk : Bool
deriving DecidableEq, Repr

/-- Modelled from the spec: running the fetch job over an element's sources
(section 4.5 `skipped`: work already satisfied is not re-attempted).  Returns
the list of sources on which fetch was actually invoked, and whether the
fetch operation succeeded overall. -/
def fetchElement : List TestSource → List TestSource × Bool
  | [] => ([], true)
  | s :: rest =>
    let r := fetchElement rest
    if s.cached then r
    else (s :: r.1, s.fetchOk && r.2)

/-- C8: already-satisfied work is skipped.  Fetch is never invoked on a
cached source, and when every non-cached source fetches successfully the
fetch operation succeeds — in particular for a target combining one cached
and one non-cached source. -/
theorem C8_no_fetch_cached (srcs : List TestSource) :
    (∀ s ∈ (fetchElement srcs).1, s.cached = false) ∧
    ((∀ s ∈ srcs, s.cached = false → s.fetchOk = true) →
      (fetchElement srcs).2 = true) := by
  induction srcs with
  | nil => exact ⟨fun s hs => absurd hs (List.not_mem_nil s), fun _ => rfl⟩
  | cons s rest ih =>
    constructor
    · intro t ht
      unfold fetchElement at ht
      by_cases hc : s.cached = true
      · rw [if_pos hc] at ht
        exact ih.1 t ht
      · rw [if_neg hc] at ht
        rcases List.mem_cons.mp ht with h | h
        · subst h
          exact Bool.eq_false_iff.mpr hc
        · exact ih.1 t h
    · intro hok
      unfold fetchElement
      by_cases hc : s.cached = true
      · rw [if_pos hc]
        exact ih.2 (fun t ht => hok t (List.mem_cons_of_mem _ ht))
      · rw [if_neg hc]
        have h1 : s.fetchOk = true :=
          hok s (by simp) (Bool.eq_false_iff.mpr hc)
        have h2 : (fetchElement rest).2 = true :=
          ih.2 (fun t ht => hok t (List.mem_cons_of_mem _ ht))
        simp [h1, h2]

/-- C8 witness: the regression-test target with one non-cached tar source
that fetches successfully and one always-cached source: fetch is invoked on
no cached source and the operation succeeds. -/
theorem C8_no_fetch_cached_witness :
    (∀ s ∈ (fetchElement [⟨false, true⟩, ⟨true, true⟩]).1,
      s.cached = false) ∧
    (fetchElement [⟨false, true⟩, ⟨true, true⟩]).2 = true :=
  ⟨(C8_no_fetch_cached [⟨false, true⟩, ⟨true, true⟩]).1,
   (C8_no_fetch_cached [⟨false, true⟩, ⟨true, true⟩]).2 (by decide)⟩

/-- A directory object as deserialized from the object store
(a Directory message): the digests of its file children, which must merely
exist, and the digests of its subdirectory children, which are traversed
recursively. -/
structure DirProto where
  files : List Digest
  dirs : List Digest
deriving DecidableEq, Repr

/-- The Artifact message of an artifact ref file
(tests/testutils/artifactshare.py has_artifact): the files tree digest, the
build tree digest, the public-data digest — each possibly unset, which the
source tests with the truthiness of str(digest) — and the log file
digests. -/
structure ArtifactProto where
  files : Digest
  buildtree : Digest
  publicData : Digest
  logs : List Digest
deriving DecidableEq, Repr

/-- A digest field is set when it differs from the default message, whose
string form is empty (the `str(...)` truthiness test of the source). -/
def Digest.isSet (d : Digest) : Bool := d != ⟨"", 0⟩

/-- The state of an ArtifactShare
(tests/testutils/artifactshare.py): the digests present in the CAS object
store, the parse of each object that deserializes as a Directory message,
and the artifact ref directory, mapping each artifact name either to its
parsed Artifact message or to none when the ref file exists but its bytes
do not deserialize. -/
structure Share where
  objs : List Digest
  dirTable : List (Digest × DirProto)
  artifactRefs : List (String × Option ArtifactProto)
deriving DecidableEq, Repr

/-- First-match association lookup in the directory parse table. -/
def lookupDir : List (Digest × DirProto) → Digest → Option DirProto
  | [], _ => none
  | (k, v) :: rest, d => if k = d then some v else lookupDir rest d

/-- First-match association lookup in the artifact ref directory. -/
def lookupRef : List (String × Option ArtifactProto) → String →
    Option (Option ArtifactProto)
  | [], _ => none
  | (k, v) :: rest, n => if k = n then some v else lookupRef rest n

/-- Modelled from the spec: the recursive reachability check performed by
`CASCache._reachable_refs_dir` with check_exists=True, which is not part of
the sampled sources (section 4.1 reachable_from: traverses a Directory Tree
recursively, resolving child digests, and fails if a referenced digest is
missing or a tree fails to deserialize).  The fuel argument bounds the
recursion depth; has_artifact supplies one unit per parseable directory. -/
def checkTree (s : Share) : Nat → Digest → Bool
  | 0, _ => false
  | fuel + 1, d =>
    if s.objs.contains d then
      match lookupDir s.dirTable d with
      | some dir =>
          dir.files.all (fun f => s.objs.contains f) &&
          dir.dirs.all (fun c => checkTree s fuel c)
      | none => false
    else false

/-- The body of the second try block of has_artifact
(tests/testutils/artifactshare.py lines 142-169): reachability of the files
tree when its digest is set, then of the build tree when set, then existence
of the public-data object when set, then existence of every log object;
any failure yields None (the source catches CASError and FileNotFoundError
there), success returns the files digest field. -/
def artifactChecks (s : Share) (p : ArtifactProto) : Option Digest :=
  let fuel := s.dirTable.length + 1
  if p.files.isSet && !(checkTree s fuel p.files) then none
  else if p.buildtree.isSet && !(checkTree s fuel p.buildtree) then none
  else if p.publicData.isSet && !(s.objs.contains p.publicData) then none
  else if !(p.logs.all (fun l => s.objs.contains l)) then none
  else some p.files

/-- ArtifactShare.has_artifact (tests/testutils/artifactshare.py lines
131-169).  A missing ref file raises FileNotFoundError, caught: None.
A ref file whose bytes do not deserialize as an Artifact message makes
ParseFromString raise a decode error that no except clause catches: the
call errors instead of returning.  Otherwise the reachability checks run. -/
def hasArtifact (s : Share) (name : String) : Except Unit (Option Digest) :=
  match lookupRef s.artifactRefs name with
  | none => .ok none
  | some none => .error ()
  | some (some p) => .ok (artifactChecks s p)

/-- Complete presence of a tree in the share: the root object is present and
deserializes as a directory, every file child is present, and every
subdirectory child is recursively complete. -/
inductive TreeOk (s : Share) : Digest → Prop where
  | mk : ∀ (d : Digest) (dir : DirProto),
      s.objs.contains d = true →
      lookupDir s.dirTable d = some dir →
      (∀ f ∈ dir.files, s.objs.contains f = true) →
      (∀ c ∈ dir.dirs, TreeOk s c) →
      TreeOk s d

/-- Every object an artifact record references is present: the reachable set
of the files tree when set, of the build tree when set, the public-data
object when set, and every log object. -/
def ArtifactComplete (s : Share) (p : ArtifactProto) : Prop :=
  (p.files.isSet = true → TreeOk s p.files) ∧
  (p.buildtree.isSet = true → TreeOk s p.buildtree) ∧
  (p.publicData.isSet = true → s.objs.contains p.publicData = true) ∧
  (∀ l ∈ p.logs, s.objs.contains l = true)

theorem bool_ne_true {b : Bool} (h : b = false) : ¬ b = true := by
  rw [h]
  exact Bool.false_ne_true

theorem lookupDir_mem {table : List (Digest × DirProto)} {d : Digest}
    {dir : DirProto} (h : lookupDir table d = some dir) : (d, dir) ∈ table := by
  induction table with
  | nil => cases h
  | cons p rest ih =>
    unfold lookupDir at h
    by_cases he : p.1 = d
    · rw [if_pos he] at h
      cases h
      rw [← he]
      exact List.mem_cons_self p rest
    · rw [if_neg he] at h
      exact List.mem_cons_of_mem p (ih h)

theorem checkTree_sound {s : Share} :
    ∀ (fuel : Nat) (d : Digest), checkTree s fuel d = true → TreeOk s d := by
  intro fuel
  induction fuel with
  | zero => intro d h; cases h
  | succ n ih =>
    intro d h
    unfold checkTree at h
    by_cases hobj : s.objs.contains d = true
    · rw [if_pos hobj] at h
      cases hdir : lookupDir s.dirTable d with
      | none => rw [hdir] at h; cases h
      | some dir =>
        rw [hdir] at h
        have h2 := (Bool.and_eq_true _ _).mp h
        refine TreeOk.mk d dir hobj hdir ?_ ?_
        · intro f hf
          exact (List.all_eq_true.mp h2.1) f hf
        · intro c hc
          exact ih c ((List.all_eq_true.mp h2.2) c hc)
    · rw [if_neg (by simpa using hobj)] at h
      cases h

theorem checkTree_complete {s : Share} (rank : Digest → Nat)
    (hrank : ∀ p ∈ s.dirTable, ∀ c ∈ p.2.dirs, rank c < rank p.1)
    {d : Digest} (hok : TreeOk s d) :
    ∀ fuel : Nat, rank d < fuel → checkTree s fuel d = true := by
  induction hok with
  | mk d dir hobj hdir hfiles hdirs ih =>
    intro fuel hfuel
    cases fuel with
    | zero => cases hfuel
    | succ n =>
      unfold checkTree
      rw [if_pos hobj, hdir]
      refine (Bool.and_eq_true _ _).mpr ⟨?_, ?_⟩
      · exact List.all_eq_true.mpr hfiles
      · refine List.all_eq_true.mpr ?_
        intro c hc
        refine ih c hc n ?_
        have h1 : rank c < rank d := hrank (d, dir) (lookupDir_mem hdir) c hc
        omega

theorem checkTree_complete_len {s : Share} (rank : Digest → Nat)
    (hrank : ∀ p ∈ s.dirTable, ∀ c ∈ p.2.dirs, rank c < rank p.1)
    (hbound : ∀ p ∈ s.dirTable, rank p.1 ≤ s.dirTable.length)
    {d : Digest} (hok : TreeOk s d) :
    checkTree s (s.dirTable.length + 1) d = true := by
  cases hok with
  | mk d dir hobj hdir hfiles hdirs =>
    refine checkTree_complete rank hrank (TreeOk.mk d dir hobj hdir hfiles hdirs) _ ?_
    have h2 : rank d ≤ s.dirTable.length := hbound (d, dir) (lookupDir_mem hdir)
    omega

theorem artifactChecks_sound {s : Share} {p : ArtifactProto} {d : Digest}
    (h : artifactChecks s p = some d) :
    d = p.files ∧ ArtifactComplete s p := by
  unfold artifactChecks at h
  by_cases h1 : (p.files.isSet && !(checkTree s (s.dirTable.length + 1) p.files)) = true
  · rw [if_pos h1] at h
    cases h
  · rw [if_neg h1] at h
    by_cases h2 : (p.buildtree.isSet &&
        !(checkTree s (s.dirTable.length + 1) p.buildtree)) = true
    · rw [if_pos h2] at h
      cases h
    · rw [if_neg h2] at h
      by_cases h3 : (p.publicData.isSet && !(s.objs.contains p.publicData)) = true
      · rw [if_pos h3] at h
        cases h
      · rw [if_neg h3] at h
        by_cases h4 : (!(p.logs.all (fun l => s.objs.contains l))) = true
        · rw [if_pos h4] at h
          cases h
        · rw [if_neg h4] at h
          cases h
          refine ⟨rfl, ?_, ?_, ?_, ?_⟩
          · intro hset
            rcases Bool.and_eq_false_iff.mp (Bool.eq_false_iff.mpr h1) with hc | hc
            · rw [hset] at hc
              cases hc
            · exact checkTree_sound _ _ (by simpa using hc)
          · intro hset
            rcases Bool.and_eq_false_iff.mp (Bool.eq_false_iff.mpr h2) with hc | hc
            · rw [hset] at hc
              cases hc
            · exact checkTree_sound _ _ (by simpa using hc)
          · intro hset
            rcases Bool.and_eq_false_iff.mp (Bool.eq_false_iff.mpr h3) with hc | hc
            · rw [hset] at hc
              cases hc
            · simpa using hc
          · intro l hl
            have hall : p.logs.all (fun l => s.objs.contains l) = true := by
              cases hv : p.logs.all (fun l => s.objs.contains l) with
              | true => rfl
              | false =>
                rw [hv] at h4
                exact absurd rfl h4
            exact List.all_eq_true.mp hall l hl

theorem artifactChecks_complete {s : Share} {p : ArtifactProto}
    (rank : Digest → Nat)
    (hrank : ∀ q ∈ s.dirTable, ∀ c ∈ q.2.dirs, rank c < rank q.1)
    (hbound : ∀ q ∈ s.dirTable, rank q.1 ≤ s.dirTable.length)
    (h : ArtifactComplete s p) :
    artifactChecks s p = some p.files := by
  obtain ⟨hf, hb, hp, hl⟩ := h
  unfold artifactChecks
  have g1 : (p.files.isSet && !(checkTree s (s.dirTable.length + 1) p.files)) =
      false := by
    cases hset : p.files.isSet with
    | false => rfl
    | true =>
      rw [checkTree_complete_len rank hrank hbound (hf hset)]
      rfl
  have g2 : (p.buildtree.isSet &&
      !(checkTree s (s.dirTable.length + 1) p.buildtree)) = false := by
    cases hset : p.buildtree.isSet with
    | false => rfl
    | true =>
      rw [checkTree_complete_len rank hrank hbound (hb hset)]
      rfl
  have g3 : (p.publicData.isSet && !(s.objs.contains p.publicData)) = false := by
    cases hset : p.publicData.isSet with
    | false => rfl
    | true =>
      rw [hp hset]
      rfl
  have g4 : (!(p.logs.all (fun l => s.objs.contains l))) = false := by
    rw [List.all_eq_true.mpr hl]
    rfl
  rw [if_neg (bool_ne_true g1), if_neg (bool_ne_true g2),
    if_neg (bool_ne_true g3), if_neg (bool_ne_true g4)]

theorem artifactChecks_none_or_files {s : Share} {p : ArtifactProto} :
    artifactChecks s p = none ∨ artifactChecks s p = some p.files := by
  unfold artifactChecks
  by_cases h1 : (p.files.isSet && !(checkTree s (s.dirTable.length + 1) p.files)) = true
  · rw [if_pos h1]
    exact Or.inl rfl
  · rw [if_neg h1]
    by_cases h2 : (p.buildtree.isSet &&
        !(checkTree s (s.dirTable.length + 1) p.buildtree)) = true
    · rw [if_pos h2]
      exact Or.inl rfl
    · rw [if_neg h2]
      by_cases h3 : (p.publicData.isSet && !(s.objs.contains p.publicData)) = true
      · rw [if_pos h3]
        exact Or.inl rfl
      · rw [if_neg h3]
        by_cases h4 : (!(p.logs.all (fun l => s.objs.contains l))) = true
        · rw [if_pos h4]
          exact Or.inl rfl
        · rw [if_neg h4]
          exact Or.inr rfl

/-- C7 (amended): has_artifact never advertises an incomplete artifact.  It
returns a digest only when the ref file exists, its bytes deserialize, the
full reachable set of the files tree (and of the build tree when set) is
present, the public-data object when set and every log object are present —
and the digest returned is the record's files digest; when the record is
complete it does return that digest; when the ref file is missing, or the
record deserializes but any reachability or existence check fails, it
returns None; but when the ref file exists and does not deserialize, the
decode error propagates and the call returns nothing at all. -/
theorem C7_has_artifact_advertises_only_complete (s : Share) (name : String)
    (rank : Digest → Nat)
    (hrank : ∀ q ∈ s.dirTable, ∀ c ∈ q.2.dirs, rank c < rank q.1)
    (hbound : ∀ q ∈ s.dirTable, rank q.1 ≤ s.dirTable.length) :
    (∀ d, hasArtifact s name = .ok (some d) →
      ∃ p, lookupRef s.artifactRefs name = some (some p) ∧ d = p.files ∧
        ArtifactComplete s p) ∧
    (∀ p, lookupRef s.artifactRefs name = some (some p) →
      (ArtifactComplete s p → hasArtifact s name = .ok (some p.files)) ∧
      (¬ ArtifactComplete s p → hasArtifact s name = .ok none)) ∧
    (lookupRef s.artifactRefs name = none → hasArtifact s name = .ok none) ∧
    (lookupRef s.artifactRefs name = some none →
      hasArtifact s name = .error ()) := by
  refine ⟨?_, ?_, ?_, ?_⟩
  · intro d hd
    unfold hasArtifact at hd
    cases href : lookupRef s.artifactRefs name with
    | none => rw [href] at hd; cases hd
    | some po =>
      cases po with
      | none => rw [href] at hd; cases hd
      | some p =>
        rw [href] at hd
        have hchecks : artifactChecks s p = some d := Except.ok.inj hd
        obtain ⟨hdeq, hcomp⟩ := artifactChecks_sound hchecks
        exact ⟨p, rfl, hdeq, hcomp⟩
  · intro p href
    constructor
    · intro hcomp
      unfold hasArtifact
      rw [href]
      show Except.ok (artifactChecks s p) = Except.ok (some p.files)
      rw [artifactChecks_complete rank hrank hbound hcomp]
    · intro hncomp
      unfold hasArtifact
      rw [href]
      show Except.ok (artifactChecks s p) = Except.ok none
      rcases artifactChecks_none_or_files (s := s) (p := p) with hc | hc
      · rw [hc]
      · exact absurd (artifactChecks_sound hc).2 hncomp
  · intro href
    unfold hasArtifact
    rw [href]
  · intro href
    unfold hasArtifact
    rw [href]

/-- C7 counterexample: a share whose ref directory holds a ref file for
"art1" that exists but does not deserialize as an Artifact message.  The
claim states that in every case other than a fully present record,
has_artifact returns None; here the uncaught decode error propagates
instead, so the call neither returns the files digest nor returns None. -/
theorem C7_decode_error_counterexample :
    hasArtifact ⟨[], [], [("art1", none)]⟩ "art1" = Except.error () ∧
    hasArtifact ⟨[], [], [("art1", none)]⟩ "art1" ≠ Except.ok none :=
  ⟨rfl, fun h => Except.noConfusion h⟩

/-- Witness digest: the root directory of the files tree. -/
def wD1 : Digest := ⟨"d1", 10⟩

/-- Witness digest: a subdirectory of the files tree. -/
def wD2 : Digest := ⟨"d2", 4⟩

/-- Witness digest: a file blob, both a tree child and a log object. -/
def wF1 : Digest := ⟨"f1", 7⟩

/-- Witness artifact record: files tree wD1, no build tree, no public data,
one log object. -/
def wProto : ArtifactProto := ⟨wD1, ⟨"", 0⟩, ⟨"", 0⟩, [wF1]⟩

/-- Witness share: all three objects present, wD1 a directory with file
child wF1 and subdirectory wD2, and one well-formed ref file. -/
def wShare : Share :=
  ⟨[wD1, wD2, wF1], [(wD1, ⟨[wF1], [wD2]⟩), (wD2, ⟨[], []⟩)],
   [("art", some wProto)]⟩

/-- Witness rank function: directory depth bound for the witness share. -/
def wRank : Digest → Nat := fun d => if d = wD1 then 1 else 0

/-- C7 witness: on the concrete complete share, has_artifact returns the
record's files digest. -/
theorem C7_has_artifact_witness :
    hasArtifact wShare "art" = Except.ok (some wD1) := by
  have h := C7_has_artifact_advertises_only_complete wShare "art" wRank
    (by decide) (by decide)
  have hcomp : ArtifactComplete wShare wProto := by
    refine ⟨?_, ?_, ?_, ?_⟩
    · intro _
      exact checkTree_sound 3 wProto.files (by decide)
    · intro hset
      exact absurd hset (by decide)
    · intro hset
      exact absurd hset (by decide)
    · exact by decide
  exact (h.2.1 wProto rfl).1 hcomp

end Bst
